import Mathlib

/-!
Verification of The-Beautiful-Game-Oracle feature pipeline.

Shallow embedding of the feature-engineering core:
  - src/pipelines/feature_store.py  (FeatureCache, FeatureStore lookup/resolution,
    _smoothed_avg, _prior_rolling_mean and helpers)
  - src/analysis/build_league_results_v2.py  (compute_team_view,
    add_rolling_features, add_market_features)

Numeric values are modelled with ℚ (exact arithmetic standing in for the
floats of the source); missing values (NaN) are modelled with Option where
the dataflow depends on them.
-/

namespace Oracle

/-! ### Feature cache (src/pipelines/feature_store.py, FeatureCache) -/

/-- The four-column composite primary key of the feature_cache table. -/
structure CacheKey where
  dataset_version : String
  season : String
  home : String
  away : String
deriving DecidableEq

/-- One row of the feature_cache table: key plus (match_id, dataset_mtime, payload).
The JSON payload column is modelled as the finite float map it serialises. -/
structure CacheEntry where
  key : CacheKey
  match_id : Nat
  dataset_mtime : ℚ
  payload : List (String × ℚ)

/-- The feature_cache table. A list of rows; the primary-key constraint is
maintained by cache_set. -/
def FeatureCacheT := List CacheEntry

/-- FeatureCache.get: point SELECT on the primary key, then the staleness
guard: a hit only when the recorded dataset mtime matches within 1e-6,
otherwise treated as a miss (None). -/
def cache_get (c : FeatureCacheT) (k : CacheKey) (dataset_mtime : ℚ) :
    Option (List (String × ℚ)) :=
  match c.find? (fun e => e.key = k) with
  | none => none
  | some e =>
    if |e.dataset_mtime - dataset_mtime| > 1/1000000 then none else some e.payload

/-- FeatureCache.set: INSERT OR REPLACE keyed by the four-part primary key —
the previous row with the same key (if any) is replaced. -/
def cache_set (c : FeatureCacheT) (k : CacheKey) (dataset_mtime : ℚ)
    (match_id : Nat) (payload : List (String × ℚ)) : FeatureCacheT :=
  ⟨k, match_id, dataset_mtime, payload⟩ :: c.filter (fun e => ¬ e.key = k)

/-! ### Market features (src/analysis/build_league_results_v2.py, add_market_features) -/

/-- The epsilon used by add_market_features when clamping forecast
probabilities. -/
def marketEps : ℚ := 1/1000000

/-- pandas Series.clip(lo, hi) on a single value. -/
def clipQ (lo hi x : ℚ) : ℚ := max lo (min hi x)

/-- The probability block of add_market_features: clamp each of the three
forecast probabilities to [eps, 1-eps], then divide each by the total. -/
def market_probs (h d a : ℚ) : ℚ × ℚ × ℚ :=
  let hc := clipQ marketEps (1 - marketEps) h
  let dc := clipQ marketEps (1 - marketEps) d
  let ac := clipQ marketEps (1 - marketEps) a
  let total := hc + dc + ac
  (hc / total, dc / total, ac / total)

/-! ### Feature lineage & requirement resolver
(src/pipelines/feature_store.py, FeatureStore._build_features_from_row) -/

/-- Lineage classification of a required feature name. -/
inductive FeatureOrigin
  | direct
  | derived
  | unknown
deriving DecidableEq

/-- One required feature as seen on a dataset row: its name, the row's value
(none models a missing / NaN cell), and its lineage classification. -/
structure RowEntry where
  name : String
  value : Option ℚ
  origin : FeatureOrigin

/-- The loop of FeatureStore._build_features_from_row over the required
feature list, threading the _unknown_features_logged set. Returns the
feature map (in required order), the warning log emitted by this call (names,
in order), and the final logged set. A present value is used as-is (float
coercion is the identity in the ℚ model); a missing value is defaulted to 0,
with a warning only when the lineage is unknown and the name not yet logged. -/
def build_features_from_row :
    List RowEntry → List String → List (String × ℚ) × List String × List String
  | [], logged => ([], [], logged)
  | e :: rest, logged =>
    match e.value with
    | some v =>
      let r := build_features_from_row rest logged
      ((e.name, v) :: r.1, r.2)
    | none =>
      if e.origin = FeatureOrigin.unknown ∧ e.name ∉ logged then
        let r := build_features_from_row rest (e.name :: logged)
        ((e.name, 0) :: r.1, e.name :: r.2.1, r.2.2)
      else
        let r := build_features_from_row rest logged
        ((e.name, 0) :: r.1, r.2)
/-! ### Fixture lookup (src/pipelines/feature_store.py, FeatureStore.get_fixture,
FeatureStore.get_fixture_by_id, FeatureStore.latest_season) -/

/-- One row of the loaded dataset table as seen by the fixture lookup. -/
structure DataRow where
  match_id : Nat
  season : String
  home_team_name : String
  away_team_name : String
deriving DecidableEq

/-- Python str.lower(), modelled per character (team names are ASCII). -/
def lowerName (s : String) : String := String.mk (s.data.map Char.toLower)

/-- Lexicographic code-point order on strings, as Python compares str. -/
def charListLt : List Char → List Char → Bool
  | _, [] => false
  | [], _ :: _ => true
  | a :: as, b :: bs =>
    decide (a.toNat < b.toNat) || (decide (a.toNat = b.toNat) && charListLt as bs)

/-- Python max of two strings. -/
def strMaxB (a b : String) : String := if charListLt a.data b.data then b else a

/-- FeatureStore.latest_season: the maximum of the season column of the
loaded table (pandas Series.max over the string-typed season values). -/
def latest_season (df : List DataRow) : String :=
  (df.map (fun r => r.season)).foldl strMaxB ""

/-- The row predicate of FeatureStore.get_fixture: season equality plus
case-insensitive equality of both team names. -/
def fixtureMatch (season home away : String) (r : DataRow) : Bool :=
  r.season = season ∧ lowerName r.home_team_name = lowerName home ∧
    lowerName r.away_team_name = lowerName away

/-- The `season = season or self.latest_season` line of get_fixture: a None
or empty season argument (both falsy in Python) is replaced by latest_season. -/
def resolve_season (df : List DataRow) : Option String → String
  | none => latest_season df
  | some str => if str = "" then latest_season df else str

/-- FeatureStore.get_fixture: substitute latest_season when the season
argument is falsy, filter the table, and take the first matching row; an
empty selection raises (error). -/
def get_fixture (df : List DataRow) (season : Option String) (home away : String) :
    Except String DataRow :=
  match (df.filter (fixtureMatch (resolve_season df season) home away)).head? with
  | none => Except.error "Fixture not found"
  | some r => Except.ok r

/-- FeatureStore.get_fixture_by_id: select on match_id, first row or error. -/
def get_fixture_by_id (df : List DataRow) (mid : Nat) :
    Except String DataRow :=
  match (df.filter (fun r => r.match_id = mid)).head? with
  | none => Except.error "match_id not found in dataset"
  | some r => Except.ok r

/-! ### Team-centric view (src/analysis/build_league_results_v2.py,
compute_team_view) -/

/-- One row of the normalized match table (load_v1 output), with the fields
compute_team_view consumes. Timestamps are modelled as Nat instants. -/
structure MatchRow where
  match_id : Nat
  ts : Nat
  season : Nat
  home_team_id : Nat
  away_team_id : Nat
  home_goals : ℚ
  away_goals : ℚ
  home_xg : ℚ
  away_xg : ℚ
  outcome_code : String
deriving DecidableEq

/-- The outcome_points rule inside compute_team_view: outcome code H gives
(3,0), A gives (0,3), anything else (the draw code) gives (1,1). -/
def outcome_points (code : String) : Int × Int :=
  if code = "H" then (3, 0) else if code = "A" then (0, 3) else (1, 1)

/-- One team-perspective row of the long view. -/
structure TeamAppearance where
  match_id : Nat
  ts : Nat
  season : Nat
  team_id : Nat
  points : Int
  goals_for : ℚ
  goals_against : ℚ
  xg_for : ℚ
  xg_against : ℚ
  is_home : Bool
deriving DecidableEq

/-- The home_df row of compute_team_view for one match. -/
def homeAppearance (m : MatchRow) : TeamAppearance :=
  { match_id := m.match_id, ts := m.ts, season := m.season,
    team_id := m.home_team_id, points := (outcome_points m.outcome_code).1,
    goals_for := m.home_goals, goals_against := m.away_goals,
    xg_for := m.home_xg, xg_against := m.away_xg, is_home := true }

/-- The away_df row of compute_team_view for one match. -/
def awayAppearance (m : MatchRow) : TeamAppearance :=
  { match_id := m.match_id, ts := m.ts, season := m.season,
    team_id := m.away_team_id, points := (outcome_points m.outcome_code).2,
    goals_for := m.away_goals, goals_against := m.home_goals,
    xg_for := m.away_xg, xg_against := m.home_xg, is_home := false }

/-- The sort key of compute_team_view: sort_values(["team_id",
"match_datetime_utc"]). -/
def byTeamTs (a b : TeamAppearance) : Prop :=
  a.team_id < b.team_id ∨ (a.team_id = b.team_id ∧ a.ts ≤ b.ts)

instance : DecidableRel byTeamTs := fun a b => by
  unfold byTeamTs; infer_instance

instance : IsTotal TeamAppearance byTeamTs :=
  ⟨by intro a b; unfold byTeamTs; omega⟩

instance : IsTrans TeamAppearance byTeamTs :=
  ⟨by intro a b c; unfold byTeamTs; omega⟩

/-- compute_team_view: concatenate the home and away perspectives of every
match and sort by (team_id, kickoff timestamp). -/
def compute_team_view (ms : List MatchRow) : List TeamAppearance :=
  List.insertionSort byTeamTs
    (ms.map homeAppearance ++ ms.map awayAppearance)

/-- One team's appearances in the long view, in the groupby order of
compute_team_view (they are contiguous and timestamp-sorted there). -/
def team_rows (ms : List MatchRow) (team : Nat) : List TeamAppearance :=
  (compute_team_view ms).filter (fun a => a.team_id = team)

/-- groupby("team_id").cumcount(): the match-number sequence assigned to one
team's appearances, in order. -/
def match_numbers (ms : List MatchRow) (team : Nat) : List Nat :=
  List.range (team_rows ms team).length

/-! ### Rolling aggregate engine (src/analysis/build_league_results_v2.py,
add_rolling_features) -/

/-- pandas Series.shift(1): values move down one position, a hole in front. -/
def shift1 {α : Type} (l : List α) : List (Option α) :=
  (none :: l.map some).take l.length

/-- pandas rolling(window=w, min_periods=1).sum() over a series with holes:
at each position, the sum of the non-missing entries among the last w, or a
hole when none of them is present. -/
def rolling_sum_min1 (xs : List (Option ℚ)) (w : Nat) : List (Option ℚ) :=
  (List.range xs.length).map (fun i =>
    let win := ((xs.take (i + 1)).drop (i + 1 - w)).filterMap id
    if win.isEmpty then none else some win.sum)

/-- One rolling column of add_rolling_features for a single team's metric
series: s.shift().rolling(window=w, min_periods=1).sum(), then the final
df.fillna(0). -/
def rolling_last (vals : List ℚ) (w : Nat) : List ℚ :=
  (rolling_sum_min1 (shift1 vals) w).map (fun o => o.getD 0)

/-- A base metric read off one team's appearances in view order. -/
def metric_seq (ms : List MatchRow) (team : Nat)
    (f : TeamAppearance → ℚ) : List ℚ :=
  (team_rows ms team).map f

/-! ### Shrinkage smoothing (src/pipelines/feature_store.py, _smoothed_avg
with the games fractions prepared by _prepare_smoothed_form) -/

/-- One row's inputs to _smoothed_avg: the rolling window sum attached to the
row and the recent-games fraction min(cumcount, W)/W. -/
structure FormRow where
  window_sum : ℚ
  games_frac : ℚ

/-- The per-match rate sum/games of _smoothed_avg; games = games_frac*window,
and a zero games count yields a hole (games.replace(0, nan)). -/
def per_match_rate (window : ℚ) (r : FormRow) : Option ℚ :=
  if r.games_frac * window = 0 then none
  else some (r.window_sum / (r.games_frac * window))

/-- The cross-sectional prior of _smoothed_avg: the mean of the per-match
rates over the rows where the rate is defined, and 0 when no row has one. -/
def global_prior_mean (window : ℚ) (rows : List FormRow) : ℚ :=
  let ds := rows.filterMap (per_match_rate window)
  if ds.isEmpty then 0 else ds.sum / ds.length

/-- _smoothed_avg: the per-match rate with holes filled by the prior, blended
with the prior by alpha = games_frac.clip(0,1). -/
def smoothed_avg (window : ℚ) (rows : List FormRow) : List ℚ :=
  rows.map (fun r =>
    let pm := (per_match_rate window r).getD (global_prior_mean window rows)
    let alpha := clipQ 0 1 r.games_frac
    alpha * pm + (1 - alpha) * global_prior_mean window rows)

/-! ### Prior rolling means over shot metrics
(src/pipelines/feature_store.py, _prior_rolling_mean; its value columns have
been made hole-free by the fillna(median) in _prepare_shot_features) -/

/-- pandas Series.median over a hole-free float column: middle element of the
sorted values, or the mean of the two middle ones; a hole for an empty
column. -/
def medianQ (l : List ℚ) : Option ℚ :=
  let s := List.insertionSort (fun a b => a ≤ b) l
  if s.length = 0 then none
  else if s.length % 2 = 1 then s[s.length / 2]?
  else
    match s[s.length / 2 - 1]?, s[s.length / 2]? with
    | some a, some b => some ((a + b) / 2)
    | _, _ => none

/-- pandas rolling(w, min_periods=1).mean() over a hole-free series: at each
position the mean of the last w values. -/
def rolling_mean_min1 (vals : List ℚ) (w : Nat) : List ℚ :=
  (List.range vals.length).map (fun i =>
    let win := (vals.take (i + 1)).drop (i + 1 - w)
    win.sum / win.length)

/-- _prior_rolling_mean on one team's value series: the shifted rolling mean,
its holes filled first from the shifted raw series whose own holes were
filled with the dataset-wide column median, and any remaining hole with 0. -/
def prior_rolling_mean (vals : List ℚ) (w : Nat) (col_median : Option ℚ) :
    List ℚ :=
  let series := shift1 (rolling_mean_min1 vals w)
  let fallback := (shift1 vals).map (fun o => match o with
    | some v => some v
    | none => col_median)
  (series.zip fallback).map (fun sf => ((sf.1).orElse (fun _ => sf.2)).getD 0)

/-! ### Proofs -/

lemma clipQ_mem (lo hi x : ℚ) (hlohi : lo ≤ hi) :
    lo ≤ clipQ lo hi x ∧ clipQ lo hi x ≤ hi := by
  constructor
  · exact le_max_left _ _
  · exact max_le hlohi (min_le_left _ _)

lemma market_clip_bounds (x : ℚ) :
    marketEps ≤ clipQ marketEps (1 - marketEps) x ∧
      clipQ marketEps (1 - marketEps) x ≤ 1 - marketEps :=
  clipQ_mem _ _ _ (by norm_num [marketEps])

/-- C2: after FeatureCache.set stores a payload for a key with dataset mtime t,
FeatureCache.get on the same key with mtime t returns the identical payload,
and get with any mtime farther than 1e-6 from t returns a miss (none). -/
theorem cache_round_trip (c : FeatureCacheT) (k : CacheKey) (t tq : ℚ)
    (mid : Nat) (p : List (String × ℚ)) :
    cache_get (cache_set c k t mid p) k t = some p ∧
    (|tq - t| > 1/1000000 → cache_get (cache_set c k t mid p) k tq = none) := by
  have hfind : (cache_set c k t mid p).find? (fun e => e.key = k) =
      some ⟨k, mid, t, p⟩ := by
    simp [cache_set]
  refine ⟨?_, fun hfar => ?_⟩
  · simp [cache_get, hfind]
  · rw [abs_sub_comm] at hfar
    simp only [cache_get, hfind]
    rw [if_pos hfar]

/-- Witness for C2 at a concrete store, key, payload and pair of mtimes. -/
theorem cache_round_trip_witness :
    cache_get (cache_set [] ⟨"7", "2024", "arsenal", "leeds"⟩ 0 101
        [("forecast_home_win", 1/2)]) ⟨"7", "2024", "arsenal", "leeds"⟩ 0 =
      some [("forecast_home_win", 1/2)] ∧
    cache_get (cache_set [] ⟨"7", "2024", "arsenal", "leeds"⟩ 0 101
        [("forecast_home_win", 1/2)]) ⟨"7", "2024", "arsenal", "leeds"⟩ 1 =
      none := by
  have h := cache_round_trip [] ⟨"7", "2024", "arsenal", "leeds"⟩ 0 1 101
    [("forecast_home_win", 1/2)]
  exact ⟨h.1, h.2 (by norm_num)⟩

/-- C4: after add_market_features the three forecast probabilities have been
clamped to [1e-6, 1-1e-6] and renormalized: they sum to exactly 1 (hence
within tolerance 1e-6) and each lies strictly inside (0,1). -/
theorem market_probs_normalized (h d a : ℚ) :
    (market_probs h d a).1 + (market_probs h d a).2.1 + (market_probs h d a).2.2 = 1 ∧
    |(market_probs h d a).1 + (market_probs h d a).2.1 + (market_probs h d a).2.2 - 1|
      ≤ 1/1000000 ∧
    (0 < (market_probs h d a).1 ∧ (market_probs h d a).1 < 1) ∧
    (0 < (market_probs h d a).2.1 ∧ (market_probs h d a).2.1 < 1) ∧
    (0 < (market_probs h d a).2.2 ∧ (market_probs h d a).2.2 < 1) := by
  have heps : (0 : ℚ) < marketEps := by norm_num [marketEps]
  have hh := market_clip_bounds h
  have hd := market_clip_bounds d
  have ha := market_clip_bounds a
  set hc := clipQ marketEps (1 - marketEps) h with hhc
  set dc := clipQ marketEps (1 - marketEps) d with hdc
  set ac := clipQ marketEps (1 - marketEps) a with hac
  have hhpos : 0 < hc := lt_of_lt_of_le heps hh.1
  have hdpos : 0 < dc := lt_of_lt_of_le heps hd.1
  have hapos : 0 < ac := lt_of_lt_of_le heps ha.1
  have htot : 0 < hc + dc + ac := by linarith
  have htot0 : hc + dc + ac ≠ 0 := ne_of_gt htot
  have hsum : (market_probs h d a).1 + (market_probs h d a).2.1 +
      (market_probs h d a).2.2 = 1 := by
    show hc / (hc + dc + ac) + dc / (hc + dc + ac) + ac / (hc + dc + ac) = 1
    field_simp
  refine ⟨hsum, by rw [hsum]; norm_num, ?_, ?_, ?_⟩
  · exact ⟨div_pos hhpos htot, (div_lt_one htot).mpr (by linarith)⟩
  · exact ⟨div_pos hdpos htot, (div_lt_one htot).mpr (by linarith)⟩
  · exact ⟨div_pos hapos htot, (div_lt_one htot).mpr (by linarith)⟩

lemma bffr_features (es : List RowEntry) (L : List String) :
    (build_features_from_row es L).1 = es.map (fun e => (e.name, e.value.getD 0)) := by
  induction es generalizing L with
  | nil => rfl
  | cons e rest ih =>
    cases hv : e.value with
    | some v => simp [build_features_from_row, hv, ih]
    | none =>
      by_cases hc : e.origin = FeatureOrigin.unknown ∧ e.name ∉ L
      · simp [build_features_from_row, hv, if_pos hc, ih]
      · simp [build_features_from_row, hv, if_neg hc, ih]

lemma bffr_warn_of_logged (es : List RowEntry) (L : List String) :
    ∀ n ∈ L, n ∉ (build_features_from_row es L).2.1 := by
  induction es generalizing L with
  | nil => intro n _ h; exact absurd h (List.not_mem_nil n)
  | cons e rest ih =>
    intro n hn
    cases hv : e.value with
    | some v => simpa [build_features_from_row, hv] using ih L n hn
    | none =>
      by_cases hc : e.origin = FeatureOrigin.unknown ∧ e.name ∉ L
      · have hne : n ≠ e.name := fun h => hc.2 (h ▸ hn)
        have hn2 : n ∈ e.name :: L := List.mem_cons_of_mem _ hn
        simp only [build_features_from_row, hv, if_pos hc, List.mem_cons]
        push_neg
        exact ⟨hne, ih (e.name :: L) n hn2⟩
      · simpa [build_features_from_row, hv, if_neg hc] using ih L n hn

lemma bffr_warn_nodup (es : List RowEntry) (L : List String) :
    (build_features_from_row es L).2.1.Nodup := by
  induction es generalizing L with
  | nil => exact List.nodup_nil
  | cons e rest ih =>
    cases hv : e.value with
    | some v => simpa [build_features_from_row, hv] using ih L
    | none =>
      by_cases hc : e.origin = FeatureOrigin.unknown ∧ e.name ∉ L
      · simp only [build_features_from_row, hv, if_pos hc]
        exact List.nodup_cons.mpr
          ⟨bffr_warn_of_logged rest (e.name :: L) e.name (List.mem_cons_self _ _),
            ih (e.name :: L)⟩
      · simpa [build_features_from_row, hv, if_neg hc] using ih L

lemma bffr_logged_sub (es : List RowEntry) (L : List String) :
    ∀ n ∈ L, n ∈ (build_features_from_row es L).2.2 := by
  induction es generalizing L with
  | nil => intro n hn; exact hn
  | cons e rest ih =>
    intro n hn
    cases hv : e.value with
    | some v => simpa [build_features_from_row, hv] using ih L n hn
    | none =>
      by_cases hc : e.origin = FeatureOrigin.unknown ∧ e.name ∉ L
      · simp only [build_features_from_row, hv, if_pos hc]
        exact ih (e.name :: L) n (List.mem_cons_of_mem _ hn)
      · simpa [build_features_from_row, hv, if_neg hc] using ih L n hn

lemma bffr_warn_in_final (es : List RowEntry) (L : List String) :
    ∀ n ∈ (build_features_from_row es L).2.1, n ∈ (build_features_from_row es L).2.2 := by
  induction es generalizing L with
  | nil => intro n h; exact absurd h (List.not_mem_nil n)
  | cons e rest ih =>
    intro n hn
    cases hv : e.value with
    | some v =>
      simp only [build_features_from_row, hv] at hn ⊢
      exact ih L n hn
    | none =>
      by_cases hc : e.origin = FeatureOrigin.unknown ∧ e.name ∉ L
      · simp only [build_features_from_row, hv, if_pos hc, List.mem_cons] at hn ⊢
        rcases hn with rfl | hn
        · exact bffr_logged_sub rest (e.name :: L) e.name (List.mem_cons_self _ _)
        · exact ih (e.name :: L) n hn
      · simp only [build_features_from_row, hv, if_neg hc] at hn ⊢
        exact ih L n hn

/-- C6: for every fixture lookup, each required feature missing from the row
is defaulted to 0.0 in the returned map (present values pass through as
floats), and at most one warning is ever logged per unique feature name:
within a call the warning log has no duplicates, a name already in the
instance's logged set is never warned again, and every warned name ends up
in the logged set threaded to later calls. -/
theorem resolver_defaults_and_warns_once (es : List RowEntry) (L : List String) :
    (build_features_from_row es L).1 = es.map (fun e => (e.name, e.value.getD 0)) ∧
    (∀ n, ((build_features_from_row es L).2.1).count n ≤ 1) ∧
    (∀ n ∈ L, n ∉ (build_features_from_row es L).2.1) ∧
    (∀ n ∈ (build_features_from_row es L).2.1, n ∈ (build_features_from_row es L).2.2) := by
  refine ⟨bffr_features es L, ?_, bffr_warn_of_logged es L, bffr_warn_in_final es L⟩
  exact List.nodup_iff_count_le_one.mp (bffr_warn_nodup es L)

/-- Witness for C6: a present value passes through, a repeated missing
unknown feature is defaulted to 0 twice but warned about at most once. -/
theorem resolver_defaults_and_warns_once_witness :
    (build_features_from_row
        [⟨"elo_home_pre", some 3, FeatureOrigin.direct⟩,
         ⟨"mystery_feature", none, FeatureOrigin.unknown⟩,
         ⟨"mystery_feature", none, FeatureOrigin.unknown⟩] []).1 =
      [("elo_home_pre", 3), ("mystery_feature", 0), ("mystery_feature", 0)] ∧
    ((build_features_from_row
        [⟨"elo_home_pre", some 3, FeatureOrigin.direct⟩,
         ⟨"mystery_feature", none, FeatureOrigin.unknown⟩,
         ⟨"mystery_feature", none, FeatureOrigin.unknown⟩] []).2.1).count
      "mystery_feature" ≤ 1 := by
  have h := resolver_defaults_and_warns_once
    [⟨"elo_home_pre", some 3, FeatureOrigin.direct⟩,
     ⟨"mystery_feature", none, FeatureOrigin.unknown⟩,
     ⟨"mystery_feature", none, FeatureOrigin.unknown⟩] []
  exact ⟨h.1.trans rfl, h.2.1 "mystery_feature"⟩

lemma char_eq_of_toNat_eq {a b : Char} (h : a.toNat = b.toNat) : a = b :=
  Char.eq_of_val_eq (UInt32.ext h)

lemma charListLt_irrefl (l : List Char) : charListLt l l = false := by
  induction l with
  | nil => rfl
  | cons a as ih => simp [charListLt, ih]

lemma charListLt_trans {a b c : List Char} (hab : charListLt a b = true)
    (hbc : charListLt b c = true) : charListLt a c = true := by
  induction c generalizing a b with
  | nil => cases b <;> simp [charListLt] at hbc
  | cons z zs ih =>
    cases b with
    | nil => cases a <;> simp [charListLt] at hab
    | cons y ys =>
      cases a with
      | nil => simp [charListLt]
      | cons x xs =>
        simp only [charListLt, Bool.or_eq_true, Bool.and_eq_true,
          decide_eq_true_eq] at hab hbc ⊢
        rcases hab with h1 | ⟨h1, h1t⟩ <;> rcases hbc with h2 | ⟨h2, h2t⟩
        · exact Or.inl (by omega)
        · exact Or.inl (by omega)
        · exact Or.inl (by omega)
        · exact Or.inr ⟨by omega, ih h1t h2t⟩

lemma charListLt_total {a b : List Char} (hab : charListLt a b = false)
    (hba : charListLt b a = false) : a = b := by
  induction a generalizing b with
  | nil =>
    cases b with
    | nil => rfl
    | cons y ys => simp [charListLt] at hab
  | cons x xs ih =>
    cases b with
    | nil => simp [charListLt] at hba
    | cons y ys =>
      simp only [charListLt, Bool.or_eq_false_iff, Bool.and_eq_false_iff,
        decide_eq_false_iff_not] at hab hba
      have hxy : x.toNat = y.toNat := by omega
      have hx : x = y := char_eq_of_toNat_eq hxy
      rcases hab.2 with h | h
      · exact absurd hxy h
      · rcases hba.2 with h2 | h2
        · exact absurd hxy.symm h2
        · rw [hx, ih h h2]

lemma charListLt_asymm {a b : List Char} (h : charListLt a b = true) :
    charListLt b a = false := by
  by_contra hb
  rw [Bool.not_eq_false] at hb
  have h2 := charListLt_trans h hb
  rw [charListLt_irrefl] at h2
  exact Bool.false_ne_true h2

lemma charListLt_ge_trans {a b c : List Char} (h1 : charListLt a b = false)
    (h2 : charListLt b c = false) : charListLt a c = false := by
  by_contra hac
  rw [Bool.not_eq_false] at hac
  cases hcb : charListLt c b with
  | false =>
    have hcb2 : c = b := charListLt_total hcb h2
    rw [hcb2] at hac
    rw [hac] at h1
    simp at h1
  | true =>
    have h3 := charListLt_trans hac hcb
    rw [h3] at h1
    simp at h1

lemma strMaxB_not_lt_left (a b : String) :
    charListLt (strMaxB a b).data a.data = false := by
  unfold strMaxB
  cases hc : charListLt a.data b.data with
  | true => simpa using charListLt_asymm hc
  | false => simpa using charListLt_irrefl a.data

lemma strMaxB_not_lt_right (a b : String) :
    charListLt (strMaxB a b).data b.data = false := by
  unfold strMaxB
  cases hc : charListLt a.data b.data with
  | true => simpa using charListLt_irrefl b.data
  | false => simpa using hc

lemma foldl_strMaxB_ge (l : List String) (acc : String) :
    charListLt (l.foldl strMaxB acc).data acc.data = false ∧
    ∀ s ∈ l, charListLt (l.foldl strMaxB acc).data s.data = false := by
  induction l generalizing acc with
  | nil =>
    exact ⟨charListLt_irrefl _, fun s h => absurd h (List.not_mem_nil s)⟩
  | cons x xs ih =>
    have hstep := ih (strMaxB acc x)
    rw [List.foldl_cons]
    refine ⟨charListLt_ge_trans hstep.1 (strMaxB_not_lt_left acc x), ?_⟩
    intro s hs
    rcases List.mem_cons.mp hs with rfl | hs
    · exact charListLt_ge_trans hstep.1 (strMaxB_not_lt_right acc s)
    · exact hstep.2 s hs

lemma foldl_strMaxB_mem (l : List String) (acc : String) :
    l.foldl strMaxB acc = acc ∨ l.foldl strMaxB acc ∈ l := by
  induction l generalizing acc with
  | nil => exact Or.inl rfl
  | cons x xs ih =>
    rw [List.foldl_cons]
    rcases ih (strMaxB acc x) with h | h
    · rw [h]
      unfold strMaxB
      split
      · exact Or.inr (List.mem_cons_self _ _)
      · exact Or.inl rfl
    · exact Or.inr (List.mem_cons_of_mem _ h)

lemma latest_season_mem (df : List DataRow) (hne : df ≠ []) :
    latest_season df ∈ df.map (fun r => r.season) := by
  unfold latest_season
  rcases foldl_strMaxB_mem (df.map (fun r => r.season)) "" with h | h
  · rw [h]
    cases df with
    | nil => exact absurd rfl hne
    | cons r rs =>
      have hr : r.season ∈ (r :: rs).map (fun r => r.season) := by simp
      have hge := (foldl_strMaxB_ge ((r :: rs).map (fun r => r.season)) "").2 r.season hr
      rw [h] at hge
      have hdata : r.season.data = [] := by
        cases hd : r.season.data with
        | nil => rfl
        | cons c cs => rw [hd] at hge; simp [charListLt] at hge
      have hempty : r.season = "" := by
        have h2 : r.season = String.mk r.season.data := rfl
        rw [hdata] at h2
        exact h2
      exact hempty ▸ hr
  · exact h

/-- C7: get_fixture raises NotFound when no row matches the (season, home,
away) triple, get_fixture_by_id raises NotFound when no row has the match id,
and team-name matching is case-insensitive: arguments equal up to lowercasing
give identical results unconditionally, and when a matching row exists both
casings of the query return the same found row. -/
theorem fixture_not_found_and_case_insensitive (df : List DataRow)
    (s home away home2 away2 : String) (mid : Nat)
    (hs : s ≠ "")
    (hh : lowerName home2 = lowerName home)
    (ha : lowerName away2 = lowerName away) :
    ((∀ r ∈ df, fixtureMatch s home away r = false) →
      get_fixture df (some s) home away = Except.error "Fixture not found") ∧
    ((∀ r ∈ df, ¬ r.match_id = mid) →
      get_fixture_by_id df mid = Except.error "match_id not found in dataset") ∧
    get_fixture df (some s) home2 away2 = get_fixture df (some s) home away ∧
    (∀ r ∈ df, fixtureMatch s home away r = true →
      ∃ w, get_fixture df (some s) home2 away2 = Except.ok w ∧
        get_fixture df (some s) home away = Except.ok w) := by
  have hpred : fixtureMatch (resolve_season df (some s)) home2 away2 =
      fixtureMatch (resolve_season df (some s)) home away := by
    funext r
    simp [fixtureMatch, hh, ha]
  have hres : resolve_season df (some s) = s := by
    simp [resolve_season, hs]
  have hpredS : fixtureMatch s home2 away2 = fixtureMatch s home away := by
    funext r
    simp [fixtureMatch, hh, ha]
  refine ⟨fun hnone => ?_, fun hnoid => ?_, ?_, ?_⟩
  · have hfil : df.filter (fixtureMatch s home away) = [] :=
      List.filter_eq_nil_iff.mpr (fun r hr => by simp [hnone r hr])
    simp [get_fixture, hres, hfil]
  · have hfil2 : df.filter (fun r => r.match_id = mid) = [] :=
      List.filter_eq_nil_iff.mpr (fun r hr => by simpa using hnoid r hr)
    simp [get_fixture_by_id, hfil2]
  · rw [get_fixture, get_fixture, hpred]
  · intro r hr hpredr
    have hmem : r ∈ df.filter (fixtureMatch s home away) :=
      List.mem_filter.mpr ⟨hr, hpredr⟩
    obtain ⟨w, hw⟩ : ∃ w, (df.filter (fixtureMatch s home away)).head? = some w := by
      cases hL : df.filter (fixtureMatch s home away) with
      | nil => rw [hL] at hmem; exact absurd hmem (List.not_mem_nil r)
      | cons a t => exact ⟨a, rfl⟩
    refine ⟨w, ?_, ?_⟩
    · simp only [get_fixture, hres, hpredS, hw]
    · simp only [get_fixture, hres, hw]

/-- Witness for C7: on a one-row table, an unmatched season/team query and an
unmatched match id both miss, while the stored fixture queried in a different
letter case is found and equals the original-case lookup. -/
theorem fixture_not_found_and_case_insensitive_witness :
    get_fixture [⟨1, "2024", "Arsenal", "Leeds"⟩] (some "1999") "Chelsea" "Spurs" =
      Except.error "Fixture not found" ∧
    get_fixture_by_id [⟨1, "2024", "Arsenal", "Leeds"⟩] 999 =
      Except.error "match_id not found in dataset" ∧
    get_fixture [⟨1, "2024", "Arsenal", "Leeds"⟩] (some "2024") "ARSENAL" "LEEDS" =
      get_fixture [⟨1, "2024", "Arsenal", "Leeds"⟩] (some "2024") "arsenal" "leeds" ∧
    get_fixture [⟨1, "2024", "Arsenal", "Leeds"⟩] (some "2024") "ARSENAL" "LEEDS" =
      Except.ok ⟨1, "2024", "Arsenal", "Leeds"⟩ := by
  have hmiss := fixture_not_found_and_case_insensitive
    [⟨1, "2024", "Arsenal", "Leeds"⟩] "1999" "Chelsea" "Spurs" "CHELSEA" "SPURS"
    999 (by decide) (by decide) (by decide)
  have hhit := fixture_not_found_and_case_insensitive
    [⟨1, "2024", "Arsenal", "Leeds"⟩] "2024" "arsenal" "leeds" "ARSENAL" "LEEDS"
    999 (by decide) (by decide) (by decide)
  obtain ⟨w, hw1, hw2⟩ := hhit.2.2.2 ⟨1, "2024", "Arsenal", "Leeds"⟩
    (List.mem_singleton.mpr rfl) (by decide)
  have hwval : w = ⟨1, "2024", "Arsenal", "Leeds"⟩ := by
    have hok : get_fixture [⟨1, "2024", "Arsenal", "Leeds"⟩] (some "2024")
        "arsenal" "leeds" = Except.ok ⟨1, "2024", "Arsenal", "Leeds"⟩ := rfl
    rw [hok] at hw2
    exact (Except.ok.inj hw2).symm
  exact ⟨hmiss.1 (by decide), hmiss.2.1 (by decide), hhit.2.2.1,
    hwval ▸ hw1⟩

/-- C9: a call to get_fixture with season None or empty performs the lookup
with the latest season substituted (the maximum season value present in the
loaded table) instead of raising an error for the missing argument. -/
theorem get_fixture_defaults_latest (df : List DataRow) (home away : String)
    (hne : df ≠ []) :
    get_fixture df none home away =
      get_fixture df (some (latest_season df)) home away ∧
    get_fixture df (some "") home away =
      get_fixture df (some (latest_season df)) home away ∧
    latest_season df ∈ df.map (fun r => r.season) ∧
    ∀ r ∈ df, charListLt (latest_season df).data r.season.data = false := by
  have hres : resolve_season df none = latest_season df := rfl
  have hres2 : resolve_season df (some "") = latest_season df := rfl
  have hres3 : resolve_season df (some (latest_season df)) = latest_season df := by
    simp [resolve_season, ite_self]
  refine ⟨?_, ?_, latest_season_mem df hne, ?_⟩
  · rw [get_fixture, get_fixture, hres, hres3]
  · rw [get_fixture, get_fixture, hres2, hres3]
  · intro r hr
    exact (foldl_strMaxB_ge (df.map (fun x => x.season)) "").2 r.season
      (List.mem_map_of_mem _ hr)

/-- Witness for C9 on a concrete two-row table spanning two seasons. -/
theorem get_fixture_defaults_latest_witness :
    get_fixture [⟨1, "2023", "Arsenal", "Leeds"⟩, ⟨2, "2024", "Leeds", "Arsenal"⟩]
        none "Leeds" "Arsenal" =
      get_fixture [⟨1, "2023", "Arsenal", "Leeds"⟩, ⟨2, "2024", "Leeds", "Arsenal"⟩]
        (some (latest_season
          [⟨1, "2023", "Arsenal", "Leeds"⟩, ⟨2, "2024", "Leeds", "Arsenal"⟩]))
        "Leeds" "Arsenal" ∧
    latest_season [⟨1, "2023", "Arsenal", "Leeds"⟩, ⟨2, "2024", "Leeds", "Arsenal"⟩] =
      "2024" := by
  have h := get_fixture_defaults_latest
    [⟨1, "2023", "Arsenal", "Leeds"⟩, ⟨2, "2024", "Leeds", "Arsenal"⟩]
    "Leeds" "Arsenal" (by decide)
  exact ⟨h.1, by decide⟩

lemma countP_key_eq_one {α : Type} (key : α → Nat) (l : List α) (m : α)
    (hm : m ∈ l) (h : l.Pairwise (fun a b => key a ≠ key b)) :
    l.countP (fun a => key a = key m) = 1 := by
  induction l with
  | nil => cases hm
  | cons x xs ih =>
    rcases List.mem_cons.mp hm with rfl | hm2
    · rw [List.countP_cons]
      have hxs : xs.countP (fun a => key a = key m) = 0 := by
        rw [List.countP_eq_zero]
        intro a ha
        simpa using ((List.pairwise_cons.mp h).1 a ha).symm
      simp [hxs]
    · rw [List.countP_cons]
      have hx : ¬ key x = key m := (List.pairwise_cons.mp h).1 m hm2
      rw [ih hm2 (List.pairwise_cons.mp h).2]
      simp [hx]

/-- C8: the view builder assigns (home_points, away_points) by the rule
H -> (3,0), A -> (0,3), D -> (1,1), the two team-perspective rows of a match
carry exactly those points, and a match with a unique id contributes exactly
two rows to the long view. -/
theorem outcome_points_rule_and_two_rows (ms : List MatchRow) (m : MatchRow)
    (hm : m ∈ ms)
    (hids : ms.Pairwise (fun a b => a.match_id ≠ b.match_id)) :
    outcome_points "H" = (3, 0) ∧ outcome_points "A" = (0, 3) ∧
    outcome_points "D" = (1, 1) ∧
    ((homeAppearance m).points, (awayAppearance m).points) =
      outcome_points m.outcome_code ∧
    ((compute_team_view ms).filter
      (fun a => a.match_id = m.match_id)).length = 2 := by
  refine ⟨by decide, by decide, by decide, rfl, ?_⟩
  rw [← List.countP_eq_length_filter]
  have hperm : (compute_team_view ms).Perm
      (ms.map homeAppearance ++ ms.map awayAppearance) :=
    List.perm_insertionSort byTeamTs _
  rw [hperm.countP_eq]
  rw [List.countP_append, List.countP_map, List.countP_map]
  have h1 : ms.countP ((fun a => decide (a.match_id = m.match_id)) ∘ homeAppearance)
      = 1 := by
    have := countP_key_eq_one (fun x => x.match_id) ms m hm hids
    simpa [Function.comp, homeAppearance] using this
  have h2 : ms.countP ((fun a => decide (a.match_id = m.match_id)) ∘ awayAppearance)
      = 1 := by
    have := countP_key_eq_one (fun x => x.match_id) ms m hm hids
    simpa [Function.comp, awayAppearance] using this
  omega

/-- Witness for C8: a single home win between two teams. -/
theorem outcome_points_rule_and_two_rows_witness :
    outcome_points "H" = (3, 0) ∧ outcome_points "A" = (0, 3) ∧
    outcome_points "D" = (1, 1) ∧
    ((homeAppearance ⟨1, 10, 2024, 83, 84, 2, 1, 3/2, 1/2, "H"⟩).points,
      (awayAppearance ⟨1, 10, 2024, 83, 84, 2, 1, 3/2, 1/2, "H"⟩).points) =
      outcome_points "H" ∧
    ((compute_team_view [⟨1, 10, 2024, 83, 84, 2, 1, 3/2, 1/2, "H"⟩]).filter
      (fun a => a.match_id = 1)).length = 2 :=
  outcome_points_rule_and_two_rows [⟨1, 10, 2024, 83, 84, 2, 1, 3/2, 1/2, "H"⟩]
    ⟨1, 10, 2024, 83, 84, 2, 1, 3/2, 1/2, "H"⟩ (List.mem_singleton.mpr rfl)
    (List.pairwise_singleton _ _)

lemma team_rows_sorted_ts (ms : List MatchRow) (team : Nat) :
    (team_rows ms team).Sorted (fun a b => a.ts ≤ b.ts) := by
  have hs : (compute_team_view ms).Sorted byTeamTs :=
    List.sorted_insertionSort byTeamTs _
  have hf : (team_rows ms team).Pairwise byTeamTs :=
    List.Pairwise.filter _ hs
  refine List.Pairwise.imp_of_mem ?_ hf
  intro a b ha hb hab
  have ha2 : a.team_id = team := by
    simpa using (List.mem_filter.mp ha).2
  have hb2 : b.team_id = team := by
    simpa using (List.mem_filter.mp hb).2
  rcases hab with hlt | heq
  · omega
  · exact heq.2

lemma team_rows_pairwise_lt (ms : List MatchRow) (team : Nat)
    (hts : (team_rows ms team).Pairwise (fun a b => a.ts ≠ b.ts)) :
    (team_rows ms team).Pairwise (fun a b => a.ts < b.ts) :=
  ((team_rows_sorted_ts ms team).and hts).imp
    (fun hab => lt_of_le_of_ne hab.1 hab.2)

lemma filter_ts_lt_length (l : List TeamAppearance) (t : Nat)
    (h : l.Pairwise (fun a b => a.ts < b.ts)) (i : Nat) (hi : i < l.length)
    (hti : (l.get ⟨i, hi⟩).ts = t) :
    (l.filter (fun a => a.ts < t)).length = i := by
  have hget := List.pairwise_iff_getElem.mp h
  rw [← List.take_append_drop i l, List.filter_append, List.length_append]
  have hta : (l.take i).filter (fun a => a.ts < t) = l.take i := by
    rw [List.filter_eq_self]
    intro a ha
    rw [List.mem_iff_getElem] at ha
    obtain ⟨j, hj, rfl⟩ := ha
    have hj2 : j < i := by
      rw [List.length_take] at hj; omega
    have hjl : j < l.length := by omega
    have heq : (l.take i)[j] = l[j] := List.getElem_take l
    rw [heq]
    have hlt : l[j].ts < l[i].ts := hget j i hjl hi hj2
    have hit : l[i].ts = t := by simpa using hti
    simp only [decide_eq_true_eq]
    omega
  have htd : (l.drop i).filter (fun a => a.ts < t) = [] := by
    rw [List.filter_eq_nil_iff]
    intro a ha
    rw [List.mem_iff_getElem] at ha
    obtain ⟨j, hj, rfl⟩ := ha
    have hjl : i + j < l.length := by
      rw [List.length_drop] at hj; omega
    have heq : (l.drop i)[j] = l[i + j] := List.getElem_drop l
    rw [heq]
    have hle : t ≤ l[i + j].ts := by
      rcases Nat.eq_zero_or_pos j with rfl | hj0
      · have hit : l[i + 0].ts = t := by simpa using hti
        omega
      · have hlt : l[i].ts < l[i + j].ts := hget i (i + j) hi hjl (by omega)
        have hit : l[i].ts = t := by simpa using hti
        omega
    simp only [decide_eq_true_eq]
    omega
  rw [hta, htd]
  simp [List.length_take]
  omega

/-- C3: one team's appearances in the long view are sorted by kickoff
timestamp, the match-number sequence cumcount assigns along them is strictly
increasing, and (for distinct kickoff timestamps) each appearance's match
number equals the count of that team's strictly earlier appearances. -/
theorem match_number_sequence (ms : List MatchRow) (team : Nat)
    (hts : (team_rows ms team).Pairwise (fun a b => a.ts ≠ b.ts)) :
    (team_rows ms team).Sorted (fun a b => a.ts ≤ b.ts) ∧
    List.Pairwise (fun a b => a < b) (match_numbers ms team) ∧
    ∀ i (hi : i < (team_rows ms team).length),
      (match_numbers ms team).get ⟨i, by simpa [match_numbers] using hi⟩ =
        ((team_rows ms team).filter
          (fun a => a.ts < ((team_rows ms team).get ⟨i, hi⟩).ts)).length := by
  refine ⟨team_rows_sorted_ts ms team, ?_, ?_⟩
  · simpa [match_numbers] using
      List.pairwise_lt_range (team_rows ms team).length
  · intro i hi
    rw [filter_ts_lt_length (team_rows ms team) _
      (team_rows_pairwise_lt ms team hts) i hi rfl]
    simp [match_numbers]

/-- Witness for C3: a team appearing twice (home then away) at distinct
kickoff times; the second appearance's match number is 1, the count of its
single earlier appearance. -/
theorem match_number_sequence_witness :
    (team_rows [⟨1, 5, 2024, 7, 8, 1, 0, 1, 0, "H"⟩,
        ⟨2, 9, 2024, 9, 7, 2, 2, 1, 1, "D"⟩] 7).Sorted
      (fun a b => a.ts ≤ b.ts) ∧
    (match_numbers [⟨1, 5, 2024, 7, 8, 1, 0, 1, 0, "H"⟩,
        ⟨2, 9, 2024, 9, 7, 2, 2, 1, 1, "D"⟩] 7).get ⟨1, by decide⟩ =
      ((team_rows [⟨1, 5, 2024, 7, 8, 1, 0, 1, 0, "H"⟩,
          ⟨2, 9, 2024, 9, 7, 2, 2, 1, 1, "D"⟩] 7).filter
        (fun a => a.ts <
          ((team_rows [⟨1, 5, 2024, 7, 8, 1, 0, 1, 0, "H"⟩,
            ⟨2, 9, 2024, 9, 7, 2, 2, 1, 1, "D"⟩] 7).get ⟨1, by decide⟩).ts)).length := by
  have h := match_number_sequence [⟨1, 5, 2024, 7, 8, 1, 0, 1, 0, "H"⟩,
    ⟨2, 9, 2024, 9, 7, 2, 2, 1, 1, "D"⟩] 7 (by decide)
  exact ⟨h.1, h.2.2 1 (by decide)⟩

lemma shift1_length {α : Type} (l : List α) : (shift1 l).length = l.length := by
  simp [shift1]

lemma rolling_sum_min1_length (xs : List (Option ℚ)) (w : Nat) :
    (rolling_sum_min1 xs w).length = xs.length := by
  simp [rolling_sum_min1]

lemma rolling_last_length (vals : List ℚ) (w : Nat) :
    (rolling_last vals w).length = vals.length := by
  simp [rolling_last, rolling_sum_min1_length, shift1_length]

lemma shift1_take_succ (vals : List ℚ) (i : Nat) (hi : i < vals.length) :
    (shift1 vals).take (i + 1) = none :: (vals.take i).map some := by
  unfold shift1
  rw [List.take_take, Nat.min_eq_left (by omega : i + 1 ≤ vals.length),
    List.take_succ_cons, List.map_take]

lemma shift1_window (vals : List ℚ) (w i : Nat)
    (hi : i < vals.length) :
    (((shift1 vals).take (i + 1)).drop (i + 1 - w)).filterMap id =
      (vals.take i).drop (i - w) := by
  rw [shift1_take_succ vals i hi]
  rcases Nat.lt_or_ge i w with hiw | hiw
  · have h1 : i + 1 - w = 0 := by omega
    have h2 : i - w = 0 := by omega
    rw [h1, h2, List.drop_zero, List.drop_zero]
    have hcons : List.filterMap id (none :: (vals.take i).map some) =
        List.filterMap id ((vals.take i).map some) := rfl
    rw [hcons, List.filterMap_map]
    simp
  · have h1 : i + 1 - w = (i - w) + 1 := by omega
    rw [h1, List.drop_succ_cons, ← List.map_drop, List.filterMap_map]
    simp

lemma rolling_last_eq (vals : List ℚ) (w i : Nat) (hw : 0 < w)
    (hi : i < vals.length) :
    (rolling_last vals w)[i]? = some (((vals.take i).drop (i - w)).sum) := by
  have hlen : i < (shift1 vals).length := by rw [shift1_length]; exact hi
  unfold rolling_last rolling_sum_min1
  rw [List.getElem?_map, List.getElem?_map,
    List.getElem?_range (by rw [shift1_length]; exact hi)]
  simp only [Option.map_some']
  rw [shift1_window vals w i hi]
  rcases Nat.eq_zero_or_pos i with rfl | hip
  · simp
  · have hpos : 0 < ((vals.take i).drop (i - w)).length := by
      simp only [List.length_drop, List.length_take]
      omega
    cases hL : (vals.take i).drop (i - w) with
    | nil => rw [hL] at hpos; simp at hpos
    | cons x xs => simp

/-- C1: for every team and window W in {3,5,10}, one rolling feature column
of add_rolling_features evaluated at a team appearance equals the sum of the
base metric over that team's strictly prior appearances, limited to the most
recent W of them — it never reads the current or a later appearance — and an
appearance with zero prior appearances gets the value 0. -/
theorem rolling_no_leakage (ms : List MatchRow) (team : Nat)
    (f : TeamAppearance → ℚ) (w i : Nat)
    (hw : w = 3 ∨ w = 5 ∨ w = 10)
    (hi : i < (metric_seq ms team f).length) :
    (rolling_last (metric_seq ms team f) w)[i]? =
      some ((((metric_seq ms team f).take i).drop (i - w)).sum) ∧
    (i = 0 → (rolling_last (metric_seq ms team f) w)[i]? = some 0) := by
  have hw0 : 0 < w := by rcases hw with rfl | rfl | rfl <;> norm_num
  refine ⟨rolling_last_eq _ w i hw0 hi, ?_⟩
  rintro rfl
  rw [rolling_last_eq _ w 0 hw0 hi]
  simp

/-- Witness for C1: the rolling points-last-3 value of a team's second
appearance is the metric of its single prior appearance. -/
theorem rolling_no_leakage_witness :
    (rolling_last (metric_seq [⟨1, 5, 2024, 7, 8, 1, 0, 1, 0, "H"⟩,
        ⟨2, 9, 2024, 9, 7, 2, 2, 1, 1, "D"⟩] 7 (fun a => a.goals_for)) 3)[1]? =
      some ((((metric_seq [⟨1, 5, 2024, 7, 8, 1, 0, 1, 0, "H"⟩,
        ⟨2, 9, 2024, 9, 7, 2, 2, 1, 1, "D"⟩] 7
          (fun a => a.goals_for)).take 1).drop (1 - 3)).sum) := by
  have h := rolling_no_leakage [⟨1, 5, 2024, 7, 8, 1, 0, 1, 0, "H"⟩,
    ⟨2, 9, 2024, 9, 7, 2, 2, 1, 1, "D"⟩] 7 (fun a => a.goals_for) 3 1
    (Or.inl rfl) (by decide)
  exact h.1

/-- C5: the shrinkage-smoothed average of _smoothed_avg equals
frac * (window_sum / games) + (1 - frac) * global_prior_mean with
games = min(matches_played, W) and frac = games / W; with zero games played
it equals the global prior mean. -/
theorem smoothed_avg_formula (W : ℕ) (rows : List FormRow) (i mp : ℕ)
    (hW : 0 < W) (hi : i < rows.length)
    (hfrac : (rows.get ⟨i, hi⟩).games_frac = ((min mp W : ℕ) : ℚ) / (W : ℚ)) :
    (smoothed_avg (W : ℚ) rows)[i]? = some (
      (((min mp W : ℕ) : ℚ) / (W : ℚ)) *
        ((rows.get ⟨i, hi⟩).window_sum / ((min mp W : ℕ) : ℚ)) +
      (1 - ((min mp W : ℕ) : ℚ) / (W : ℚ)) * global_prior_mean (W : ℚ) rows) ∧
    (mp = 0 →
      (smoothed_avg (W : ℚ) rows)[i]? =
        some (global_prior_mean (W : ℚ) rows)) := by
  have hWQ : (0 : ℚ) < (W : ℚ) := by exact_mod_cast hW
  have hW0 : (W : ℚ) ≠ 0 := ne_of_gt hWQ
  have hgw : (rows.get ⟨i, hi⟩).games_frac * (W : ℚ) = ((min mp W : ℕ) : ℚ) := by
    rw [hfrac]; field_simp
  have hElem : (smoothed_avg (W : ℚ) rows)[i]? = some (
      clipQ 0 1 (rows.get ⟨i, hi⟩).games_frac *
        ((per_match_rate (W : ℚ) (rows.get ⟨i, hi⟩)).getD
          (global_prior_mean (W : ℚ) rows)) +
      (1 - clipQ 0 1 (rows.get ⟨i, hi⟩).games_frac) *
        global_prior_mean (W : ℚ) rows) := by
    unfold smoothed_avg
    rw [List.getElem?_map, List.getElem?_eq_getElem hi]
    rfl
  have halpha : clipQ 0 1 (rows.get ⟨i, hi⟩).games_frac =
      ((min mp W : ℕ) : ℚ) / (W : ℚ) := by
    rw [hfrac]
    unfold clipQ
    have h01 : 0 ≤ ((min mp W : ℕ) : ℚ) / (W : ℚ) := by positivity
    have h11 : ((min mp W : ℕ) : ℚ) / (W : ℚ) ≤ 1 := by
      rw [div_le_one hWQ]
      exact_mod_cast Nat.min_le_right mp W
    rw [min_eq_right h11, max_eq_right h01]
  by_cases hmp : mp = 0
  · subst hmp
    have hmin0 : ((min 0 W : ℕ) : ℚ) = 0 := by simp
    have hpm : per_match_rate (W : ℚ) (rows.get ⟨i, hi⟩) = none := by
      unfold per_match_rate
      rw [if_pos (by rw [hgw, hmin0])]
    have hval : (smoothed_avg (W : ℚ) rows)[i]? =
        some (global_prior_mean (W : ℚ) rows) := by
      rw [hElem, halpha, hpm, hmin0]
      norm_num
    constructor
    · rw [hval, hmin0]
      norm_num
    · intro _
      exact hval
  · have hminpos : (0 : ℚ) < ((min mp W : ℕ) : ℚ) := by
      have : 0 < min mp W := by omega
      exact_mod_cast this
    have hpm : per_match_rate (W : ℚ) (rows.get ⟨i, hi⟩) =
        some ((rows.get ⟨i, hi⟩).window_sum / ((min mp W : ℕ) : ℚ)) := by
      unfold per_match_rate
      rw [if_neg (by rw [hgw]; exact ne_of_gt hminpos)]
      rw [hgw]
    refine ⟨?_, fun h0 => absurd h0 hmp⟩
    rw [hElem, halpha, hpm]
    rfl

/-- Witness for C5: two rows, the second with 2 of a window of 5 games
played; its smoothed value follows the shrinkage formula. -/
theorem smoothed_avg_formula_witness :
    (smoothed_avg ((5 : ℕ) : ℚ) [⟨10, 0⟩, ⟨10, 2/5⟩])[1]? = some (
      (((min 2 5 : ℕ) : ℚ) / ((5 : ℕ) : ℚ)) *
        (([⟨10, 0⟩, (⟨10, 2/5⟩ : FormRow)].get ⟨1, by decide⟩).window_sum /
          ((min 2 5 : ℕ) : ℚ)) +
      (1 - ((min 2 5 : ℕ) : ℚ) / ((5 : ℕ) : ℚ)) *
        global_prior_mean ((5 : ℕ) : ℚ) [⟨10, 0⟩, ⟨10, 2/5⟩]) := by
  have h := smoothed_avg_formula 5 [⟨10, 0⟩, ⟨10, 2/5⟩] 1 2 (by decide)
    (by decide) (by norm_num)
  exact h.1

lemma shift1_head {α : Type} (l : List α) (hl : l ≠ []) :
    ∃ t, shift1 l = none :: t := by
  cases l with
  | nil => exact absurd rfl hl
  | cons x xs =>
    refine ⟨((x :: xs).map some).take xs.length, ?_⟩
    unfold shift1
    rw [List.length_cons, List.take_succ_cons]

lemma prior_rolling_mean_head (vals : List ℚ) (w : Nat) (med : Option ℚ)
    (hne : vals ≠ []) :
    (prior_rolling_mean vals w med).head? = some (med.getD 0) := by
  cases vals with
  | nil => exact absurd rfl hne
  | cons v vs =>
    obtain ⟨t1, h1⟩ := shift1_head (rolling_mean_min1 (v :: vs) w) (by
      intro hnil
      have hlen : (rolling_mean_min1 (v :: vs) w).length = vs.length + 1 := by
        simp [rolling_mean_min1]
      rw [hnil] at hlen
      simp at hlen)
    obtain ⟨t2, h2⟩ := shift1_head (v :: vs) (by simp)
    unfold prior_rolling_mean
    rw [h1, h2]
    simp [List.head?]

/-- C10: in _prior_rolling_mean, a team appearance with no prior appearance
receives the dataset-wide median of the metric column — 0 only when that
median is undefined (empty column) — rather than the value 0. -/
theorem cold_start_shot_feature_is_median (vals col : List ℚ) (w : Nat)
    (hne : vals ≠ []) :
    (prior_rolling_mean vals w (medianQ col)).head? =
      some ((medianQ col).getD 0) ∧
    (∀ m, medianQ col = some m →
      (prior_rolling_mean vals w (medianQ col)).head? = some m) := by
  refine ⟨prior_rolling_mean_head vals w _ hne, fun m hm => ?_⟩
  rw [prior_rolling_mean_head vals w _ hne, hm]
  rfl

/-- Witness for C10: a team's first value against a three-value column whose
median is 3. -/
theorem cold_start_shot_feature_is_median_witness :
    (prior_rolling_mean [4] 5 (medianQ [1, 10, 3])).head? =
      some ((medianQ [1, 10, 3]).getD 0) ∧
    medianQ [1, 10, 3] = some 3 := by
  have h := cold_start_shot_feature_is_median [4] [1, 10, 3] 5 (by decide)
  exact ⟨h.1, by decide⟩

end Oracle
